import Mathlib

/-!
Shallow embedding of the classification/tagging dataset readers
(`src/dataset.rs`) and proofs of the specified properties.

Files are modelled as a total map from file name to the list of its lines
(each line given without its terminal newline).  Rust panics (`expect`) are
modelled by `Option`: `none` means the build aborts.
-/

namespace NLReaders

/-- Rust `str::split_once(c)`: split at the first occurrence of `c`,
returning the parts before and after it, or `none` if `c` is absent. -/
def splitOnce (c : Char) : List Char → Option (List Char × List Char)
  | [] => none
  | x :: xs =>
    if x = c then some ([], xs)
    else (splitOnce c xs).map (fun p => (x :: p.1, p.2))

/-- Rust `str::trim_end`: drop trailing whitespace characters. -/
def trimEnd (s : String) : String :=
  String.mk ((s.toList.reverse.dropWhile Char.isWhitespace).reverse)

/-- A parsed classification sample: the raw text and the raw label string. -/
structure ClassifierSample where
  text : String
  label : String
deriving DecidableEq, Repr

/-- `From<&str> for ClassifierSample`: split the line at the first tab into
(text, label); `expect` panics (= `none`) when the line has no tab. -/
def ClassifierSample.fromLine (line : String) : Option ClassifierSample :=
  (splitOnce '\t' line.toList).map (fun p => ⟨String.mk p.1, String.mk p.2⟩)

/-- `ClassifierIter` collected into a `Vec`: each raw line is right-trimmed
and parsed; the first parse failure panics, aborting the whole build. -/
def parseAll : List String → Option (List ClassifierSample)
  | [] => some []
  | l :: ls =>
    match ClassifierSample.fromLine (trimEnd l) with
    | none => none
    | some s => (parseAll ls).map (s :: ·)

/-- Lexicographic order on character lists; on strings this coincides with
the UTF-8 byte order that `BTreeMap<String, _>` sorts its keys by. -/
def lexLt : List Char → List Char → Bool
  | [], [] => false
  | [], _ :: _ => true
  | _ :: _, [] => false
  | a :: as, b :: bs =>
    if a < b then true else if b < a then false else lexLt as bs

/-- The `BTreeMap` key order on strings. -/
def strLt (a b : String) : Bool :=
  lexLt a.toList b.toList

/-- One step of `BTreeMap::insert` on the sorted association list that models
the map: overwrite an existing key, otherwise insert at the sorted position. -/
def insertSorted : List (String × Nat) → String × Nat → List (String × Nat)
  | [], e => [e]
  | (k, v) :: rest, e =>
    if strLt e.1 k then e :: (k, v) :: rest
    else if e.1 = k then e :: rest
    else (k, v) :: insertSorted rest e

/-- `BTreeMap::get` on the association-list model. -/
def btreeGet : List (String × Nat) → String → Option Nat
  | [], _ => none
  | (k, v) :: rest, q => if q = k then some v else btreeGet rest q

/-- `HashMap::get` where the map was collected from an iterator of pairs:
a later insert for the same key overwrites an earlier one, so the lookup
returns the value of the last matching pair. -/
def hashGet : List (String × Nat) → String → Option Nat
  | [], _ => none
  | (k, v) :: rest, q =>
    match hashGet rest q with
    | some v' => some v'
    | none => if q = k then some v else none

/-- The `.enumerate().map(|(i, ch)| (ch.to_string(), i + 1))` stream of
vocabulary entries over the flattened character sequence. -/
def charEntries (i : Nat) : List Char → List (String × Nat)
  | [] => []
  | c :: cs => (c.toString, i + 1) :: charEntries (i + 1) cs

/-- `Iterator::flatten` over the training texts' characters. -/
def joinAll : List (List Char) → List Char
  | [] => []
  | l :: ls => l ++ joinAll ls

/-- All characters of the training texts in order. -/
def trainChars (texts : List String) : List Char :=
  joinAll (texts.map String.toList)

/-- The vocabulary built in `build_dataset`: enumerate every character of
every training text (index starting at 0, entry value `i + 1`) and collect
the entries into a `BTreeMap` (later entries overwrite earlier ones). -/
def buildVocab (texts : List String) : List (String × Nat) :=
  (charEntries 0 (trainChars texts)).foldl insertSorted []

/-- The `.enumerate().map(|(i, class)| (class, i))` stream collected into
the class-index `HashMap`. -/
def classEntries (i : Nat) : List String → List (String × Nat)
  | [] => []
  | c :: cs => (c, i) :: classEntries (i + 1) cs

/-- Encode one character: its vocabulary ID, or 0 when absent. -/
def encodeChar (vocab : List (String × Nat)) (c : Char) : Nat :=
  (btreeGet vocab c.toString).getD 0

/-- Encode a text character by character. -/
def encodeText (vocab : List (String × Nat)) (text : String) : List Nat :=
  text.toList.map (encodeChar vocab)

/-- Rust `"…".parse::<usize>()`: an optional leading `+` followed by at
least one ASCII digit, with the value required to fit in 64 bits. -/
def parseUsize (s : String) : Option Nat :=
  let ds := match s.toList with
    | '+' :: rest => rest
    | cs => cs
  if ds ≠ [] ∧ ds.all Char.isDigit then
    let v := ds.foldl (fun acc c => acc * 10 + (c.toNat - 48)) 0
    if v < 2 ^ 64 then some v else none
  else none

/-- Resolve a raw label: the parsed integer when the parse succeeds,
otherwise the class index's ordinal; `none` (a panic) when neither works. -/
def encodeLabel (class2id : List (String × Nat)) (label : String) : Option Nat :=
  match parseUsize label with
  | some n => some n
  | none => hashGet class2id label

/-- A produced record: the word-ID sequence and the label ID. -/
structure ClassifierRecord where
  word_ids : List Nat
  label_id : Nat
deriving DecidableEq, Repr

/-- `ClassifierRecord::new`: right-pad with 0 up to `N`, or truncate to the
first `N` IDs. -/
def ClassifierRecord.new (N : Nat) (word_ids : List Nat) (label_id : Nat) :
    ClassifierRecord :=
  let len := word_ids.length
  if len < N then ⟨word_ids ++ List.replicate (N - len) 0, label_id⟩
  else if len > N then ⟨word_ids.take N, label_id⟩
  else ⟨word_ids, label_id⟩

/-- Encode one sample into a record; `none` when the label is unresolvable. -/
def sampleToRecord (N : Nat) (vocab class2id : List (String × Nat))
    (s : ClassifierSample) : Option ClassifierRecord :=
  (encodeLabel class2id s.label).map
    (fun lid => ClassifierRecord.new N (encodeText vocab s.text) lid)

/-- `samples_to_records`: encode every sample, aborting at the first
unresolvable label. -/
def samples_to_records (N : Nat) (vocab class2id : List (String × Nat)) :
    List ClassifierSample → Option (List ClassifierRecord)
  | [] => some []
  | s :: ss =>
    match sampleToRecord N vocab class2id s with
    | none => none
    | some r => (samples_to_records N vocab class2id ss).map (r :: ·)

/-- The vocabulary-source selector of the configuration. -/
inductive Vocabulary where
  | Vocab (file : String)
  | Embedding (file : String)
  | Empty
deriving DecidableEq, Repr

/-- `DataConfig`: unknown token, padding token, vocabulary source, and the
runtime maximum sequence length. -/
structure DataConfig where
  UNK : String
  PAD : String
  vocab_type : Vocabulary
  max_length : Nat

/-- `DataConfig::new`. -/
def DataConfig.new (UNK_TOKEN PAD_TOKEN : String) (max_length : Nat) :
    DataConfig :=
  ⟨UNK_TOKEN, PAD_TOKEN, Vocabulary.Empty, max_length⟩

/-- `Default for DataConfig`. -/
def DataConfig.default : DataConfig :=
  ⟨"<UNK>", "<PAD>", Vocabulary.Empty, 32⟩

/-- `ClassifierDataset`: the resolved file paths plus the configuration. -/
structure ClassifierDataset where
  path : String
  train_file : String
  dev_file : String
  test_file : String
  class_file : String
  vocab_file : Option String
  config : DataConfig

/-- `ClassifierDataset::new`: note that the test file resolves to
`dev.txt`, exactly as in the source. -/
def ClassifierDataset.new (path : String) : ClassifierDataset where
  path := path
  train_file := path ++ "/train.txt"
  dev_file := path ++ "/dev.txt"
  test_file := path ++ "/dev.txt"
  class_file := path ++ "/class.txt"
  vocab_file := none
  config := DataConfig.default

/-- `ClassifierDataset::with_config`. -/
def ClassifierDataset.with_config (path : String) (config : DataConfig) :
    ClassifierDataset where
  path := path
  train_file := path ++ "/train.txt"
  dev_file := path ++ "/dev.txt"
  test_file := path ++ "/dev.txt"
  class_file := path ++ "/class.txt"
  vocab_file :=
    match config.vocab_type with
    | Vocabulary.Vocab file => some (path ++ "/" ++ file)
    | Vocabulary.Embedding file => some (path ++ "/" ++ file)
    | Vocabulary.Empty => none
  config := config

/-- `read_classes`: the lines of the class file. -/
def read_classes (fs : String → List String) (ds : ClassifierDataset) :
    List String :=
  fs ds.class_file

/-- `build_dataset::<N>` over a file system `fs` mapping file names to their
lines: build the class index, parse the training split while collecting its
texts, build the vocabulary from those texts, then encode train, dev and
test splits with the finished vocabulary and class index. -/
def build_dataset (fs : String → List String) (ds : ClassifierDataset)
    (N : Nat) :
    Option (List ClassifierRecord × List ClassifierRecord ×
      List ClassifierRecord × List (String × Nat)) :=
  let class2id := classEntries 0 (read_classes fs ds)
  (parseAll (fs ds.train_file)).bind (fun trainSamples =>
    let vocab := buildVocab (trainSamples.map ClassifierSample.text)
    (samples_to_records N vocab class2id trainSamples).bind (fun trainRecords =>
      (parseAll (fs ds.dev_file)).bind (fun devSamples =>
        (samples_to_records N vocab class2id devSamples).bind (fun devRecords =>
          (parseAll (fs ds.test_file)).bind (fun testSamples =>
            (samples_to_records N vocab class2id testSamples).map
              (fun testRecords =>
                (trainRecords, devRecords, testRecords, vocab)))))))

/-- A tagging sample: the token/tag pairs of one block. -/
structure TaggingSample where
  items : List (String × String)
deriving DecidableEq, Repr

/-- `From<Vec<String>> for TaggingSample`: right-trim each line and split it
at the first tab; any line without a tab panics (= `none`). -/
def TaggingSample.fromLines : List String → Option TaggingSample
  | [] => some ⟨[]⟩
  | l :: ls =>
    match splitOnce '\t' (trimEnd l).toList with
    | none => none
    | some p =>
      (TaggingSample.fromLines ls).map
        (fun t => ⟨(String.mk p.1, String.mk p.2) :: t.items⟩)

/-- `TaggingIter::next` on the remaining lines of the file: the loop reads
every remaining line until end-of-file (it never stops at a blank line),
then returns `Some` sample parsed from all of them, leaving the reader at
end-of-file.  The outer `none` models the panic inside
`TaggingSample::from`. -/
def taggingNext (lines : List String) :
    Option (TaggingSample × List String) :=
  match TaggingSample.fromLines lines with
  | some s => some (s, [])
  | none => none

/-- A concrete dataset directory used to exercise the builder: two training
lines, one dev line, and a class file with two classes. -/
def sampleFs : String → List String := fun name =>
  if name = "data/train.txt" then ["ab\tc", "ba\td"]
  else if name = "data/dev.txt" then ["a\t0"]
  else if name = "data/class.txt" then ["c", "d"]
  else []

/-- A directory with the same training file as `sampleFs` but different
dev and class files. -/
def sampleFsB : String → List String := fun name =>
  if name = "data/train.txt" then ["ab\tc", "ba\td"]
  else if name = "data/dev.txt" then ["b\t1"]
  else if name = "data/class.txt" then ["c", "d", "e"]
  else []

/-- A directory that agrees with `sampleFs` on every file the builder
reads but differs elsewhere. -/
def sampleFsC : String → List String := fun name =>
  if name = "data/other.bin" then ["junk"] else sampleFs name

theorem btreeGet_insertSorted (m : List (String × Nat)) (e : String × Nat)
    (q : String) :
    btreeGet (insertSorted m e) q =
      if q = e.1 then some e.2 else btreeGet m q := by
  obtain ⟨ek, ev⟩ := e
  induction m with
  | nil => simp [insertSorted, btreeGet]
  | cons head rest ih =>
    obtain ⟨k, v⟩ := head
    by_cases h1 : strLt ek k
    · rw [show insertSorted ((k, v) :: rest) (ek, ev) = (ek, ev) :: (k, v) :: rest
        from by simp [insertSorted, h1]]
      rfl
    · by_cases h2 : ek = k
      · rw [show insertSorted ((k, v) :: rest) (ek, ev) = (ek, ev) :: rest
          from by simp only [insertSorted]; rw [if_neg h1, if_pos h2]]
        subst h2
        by_cases hq : q = ek
        · simp [btreeGet, hq]
        · simp [btreeGet, hq]
      · rw [show insertSorted ((k, v) :: rest) (ek, ev) =
            (k, v) :: insertSorted rest (ek, ev)
          from by simp [insertSorted, h1, h2]]
        by_cases hq : q = k
        · have hke : ¬k = ek := fun h => h2 h.symm
          simp [btreeGet, hq, hke]
        · simp [btreeGet, hq, ih]

theorem btreeGet_foldl_of_no_key (entries : List (String × Nat)) (q : String)
    (h : ∀ e ∈ entries, e.1 ≠ q) (init : List (String × Nat)) :
    btreeGet (entries.foldl insertSorted init) q = btreeGet init q := by
  induction entries generalizing init with
  | nil => rfl
  | cons e es ih =>
    have he : e.1 ≠ q := h e (by simp)
    have hes : ∀ x ∈ es, x.1 ≠ q := fun x hx => h x (by simp [hx])
    simp only [List.foldl_cons]
    rw [ih hes, btreeGet_insertSorted, if_neg (fun hq => he hq.symm)]

theorem mem_charEntries {p : String × Nat} {i : Nat} {cs : List Char}
    (hp : p ∈ charEntries i cs) : ∃ c ∈ cs, p.1 = c.toString := by
  induction cs generalizing i with
  | nil => simp [charEntries] at hp
  | cons c cs ih =>
    simp only [charEntries, List.mem_cons] at hp
    rcases hp with hp | hp
    · exact ⟨c, by simp, by simp [hp]⟩
    · obtain ⟨c', hc', hs⟩ := ih hp
      exact ⟨c', by simp [hc'], hs⟩

theorem mem_joinAll {c : Char} {L : List (List Char)} :
    c ∈ joinAll L ↔ ∃ l ∈ L, c ∈ l := by
  induction L with
  | nil => simp [joinAll]
  | cons l ls ih =>
    simp only [joinAll, List.mem_append, ih, List.mem_cons]
    constructor
    · rintro (hc | ⟨m, hm, hc⟩)
      · exact ⟨l, Or.inl rfl, hc⟩
      · exact ⟨m, Or.inr hm, hc⟩
    · rintro ⟨m, rfl | hm, hc⟩
      · exact Or.inl hc
      · exact Or.inr ⟨m, hm, hc⟩

theorem char_toString_injective {a b : Char} (h : a.toString = b.toString) :
    a = b := by
  have hd : a.toString.data = b.toString.data := by rw [h]
  simpa [Char.toString, String.push] using hd

theorem splitOnce_eq_none_of_not_mem {c : Char} {l : List Char}
    (h : c ∉ l) : splitOnce c l = none := by
  induction l with
  | nil => rfl
  | cons x xs ih =>
    simp only [List.mem_cons, not_or] at h
    have hxc : ¬x = c := fun he => h.1 he.symm
    simp [splitOnce, hxc, ih h.2]

theorem splitOnce_first {c : Char} (pre post : List Char) (h : c ∉ pre) :
    splitOnce c (pre ++ c :: post) = some (pre, post) := by
  induction pre with
  | nil => simp [splitOnce]
  | cons x xs ih =>
    simp only [List.mem_cons, not_or] at h
    have hxc : ¬x = c := fun he => h.1 he.symm
    simp [splitOnce, hxc, ih h.2]

theorem fromLine_eq_none_of_no_tab {s : String} (h : '\t' ∉ s.toList) :
    ClassifierSample.fromLine s = none := by
  unfold ClassifierSample.fromLine
  rw [splitOnce_eq_none_of_not_mem h]
  rfl

theorem parseAll_eq_none_of_bad_line {lines : List String}
    (h : ∃ line ∈ lines, '\t' ∉ (trimEnd line).toList) :
    parseAll lines = none := by
  induction lines with
  | nil => simp at h
  | cons l ls ih =>
    obtain ⟨line, hmem, hline⟩ := h
    simp only [List.mem_cons] at hmem
    rcases hmem with rfl | hmem
    · simp [parseAll, fromLine_eq_none_of_no_tab hline]
    · simp only [parseAll]
      cases ClassifierSample.fromLine (trimEnd l) with
      | none => rfl
      | some s => simp [ih ⟨line, hmem, hline⟩]

theorem ClassifierRecord.new_length (N : Nat) (ids : List Nat) (lid : Nat) :
    (ClassifierRecord.new N ids lid).word_ids.length = N := by
  simp only [ClassifierRecord.new]
  split_ifs with h1 h2 <;> simp <;> omega

theorem samples_to_records_length {N : Nat}
    {vocab class2id : List (String × Nat)} {samples : List ClassifierSample}
    {recs : List ClassifierRecord}
    (h : samples_to_records N vocab class2id samples = some recs) :
    ∀ r ∈ recs, r.word_ids.length = N := by
  induction samples generalizing recs with
  | nil =>
    simp only [samples_to_records, Option.some.injEq] at h
    subst h
    simp
  | cons s ss ih =>
    simp only [samples_to_records] at h
    cases hr : sampleToRecord N vocab class2id s with
    | none => rw [hr] at h; cases h
    | some r =>
      rw [hr] at h
      simp only [Option.map_eq_some'] at h
      obtain ⟨rs, hrs, rfl⟩ := h
      intro x hx
      rcases List.mem_cons.mp hx with rfl | hx
      · simp only [sampleToRecord, Option.map_eq_some'] at hr
        obtain ⟨lid, _, rfl⟩ := hr
        exact ClassifierRecord.new_length N _ lid
      · exact ih hrs x hx

/-- C1: the claim fails on the code.  For the training texts
`["ab", "ba"]` (two distinct characters) the vocabulary built by
`build_dataset` is `{"a" ↦ 4, "b" ↦ 3}` — each ID is the 1-based position
of the character's *last* occurrence in the flattened character stream —
rather than the dense first-seen IDs `{"a" ↦ 1, "b" ↦ 2}` the claim
requires: ID 1 is never assigned and the IDs are not the range 1..2. -/
theorem vocab_ids_are_last_occurrence_positions :
    buildVocab ["ab", "ba"] = [("a", 4), ("b", 3)] ∧
    btreeGet (buildVocab ["ab", "ba"]) "a" = some 4 ∧
    (¬∃ p ∈ buildVocab ["ab", "ba"], p.2 = 1) ∧
    (build_dataset sampleFs (ClassifierDataset.new "data") 3).map
        (fun r => r.2.2.2) = some [("a", 4), ("b", 3)] := by
  decide

/-- C2: `ClassifierRecord::new` always yields exactly `N` word IDs: a
shorter input is right-padded with zeros up to `N`, and a longer input
keeps only its first `N` IDs. -/
theorem record_new_pad_or_truncate (N : Nat) (h : 1 ≤ N) (ids : List Nat)
    (lid : Nat) :
    (ClassifierRecord.new N ids lid).word_ids.length = N ∧
    (ids.length ≤ N →
      (ClassifierRecord.new N ids lid).word_ids =
        ids ++ List.replicate (N - ids.length) 0) ∧
    (N ≤ ids.length →
      (ClassifierRecord.new N ids lid).word_ids = ids.take N) := by
  refine ⟨ClassifierRecord.new_length N ids lid, fun hle => ?_, fun hge => ?_⟩
  · simp only [ClassifierRecord.new]
    split_ifs with h1 h2
    · rfl
    · exact absurd hle (by omega)
    · have h0 : N - ids.length = 0 := by omega
      simp [h0]
  · simp only [ClassifierRecord.new]
    split_ifs with h1 h2
    · exact absurd hge (by omega)
    · rfl
    · have hn : ids.length = N := by omega
      simp [← hn, List.take_length]

/-- Witness for C2 at `N = 3` (padding) and `N = 2` (truncation). -/
theorem record_new_pad_or_truncate_witness :
    (ClassifierRecord.new 3 [1, 2] 7).word_ids.length = 3 ∧
    (ClassifierRecord.new 3 [1, 2] 7).word_ids =
      [1, 2] ++ List.replicate (3 - [1, 2].length) 0 ∧
    (ClassifierRecord.new 2 [5, 6, 7] 9).word_ids = [5, 6, 7].take 2 :=
  ⟨(record_new_pad_or_truncate 3 (by decide) [1, 2] 7).1,
   (record_new_pad_or_truncate 3 (by decide) [1, 2] 7).2.1 (by decide),
   (record_new_pad_or_truncate 2 (by decide) [5, 6, 7] 9).2.2 (by decide)⟩

/-- C3: a label that parses as a non-negative integer yields that integer
as the record's label ID for *any* class index (numeric parse takes
precedence); on parse failure the class index's ordinal is used; when both
fail the sample encoding aborts. -/
theorem label_resolution_order (N : Nat)
    (vocab class2id : List (String × Nat)) (s : ClassifierSample) :
    (∀ n, parseUsize s.label = some n →
      sampleToRecord N vocab class2id s =
        some (ClassifierRecord.new N (encodeText vocab s.text) n)) ∧
    (parseUsize s.label = none →
      ∀ k, hashGet class2id s.label = some k →
        sampleToRecord N vocab class2id s =
          some (ClassifierRecord.new N (encodeText vocab s.text) k)) ∧
    (parseUsize s.label = none → hashGet class2id s.label = none →
      sampleToRecord N vocab class2id s = none) := by
  refine ⟨fun n hp => ?_, fun hp k hk => ?_, fun hp hk => ?_⟩
  · simp [sampleToRecord, encodeLabel, hp]
  · simp [sampleToRecord, encodeLabel, hp, hk]
  · simp [sampleToRecord, encodeLabel, hp, hk]

/-- Witness for C3: "7" resolves to 7 even though class "7" has ordinal 0;
"c" falls back to the class index; an unresolvable label aborts. -/
theorem label_resolution_order_witness :
    sampleToRecord 2 [] [("7", 0)] ⟨"x", "7"⟩ =
      some (ClassifierRecord.new 2 (encodeText [] "x") 7) ∧
    sampleToRecord 2 [] [("c", 1)] ⟨"x", "c"⟩ =
      some (ClassifierRecord.new 2 (encodeText [] "x") 1) ∧
    sampleToRecord 2 [] [("c", 1)] ⟨"x", "nope"⟩ = none :=
  ⟨(label_resolution_order 2 [] [("7", 0)] ⟨"x", "7"⟩).1 7 (by decide),
   (label_resolution_order 2 [] [("c", 1)] ⟨"x", "c"⟩).2.1 (by decide) 1
     (by decide),
   (label_resolution_order 2 [] [("c", 1)] ⟨"x", "nope"⟩).2.2 (by decide)
     (by decide)⟩

/-- C4: when encoding a text against the vocabulary built from the
training texts, a character with a vocabulary entry maps to its ID, and a
character absent from the vocabulary — in particular one that never occurs
in any training text — maps to 0. -/
theorem encode_unknown_char_to_zero (texts : List String) (text : String) :
    encodeText (buildVocab texts) text =
      text.toList.map (encodeChar (buildVocab texts)) ∧
    ∀ c, c ∈ text.toList →
      (∀ v, btreeGet (buildVocab texts) c.toString = some v →
        encodeChar (buildVocab texts) c = v) ∧
      (btreeGet (buildVocab texts) c.toString = none →
        encodeChar (buildVocab texts) c = 0) ∧
      ((∀ t ∈ texts, c ∉ t.toList) → encodeChar (buildVocab texts) c = 0) := by
  refine ⟨rfl, fun c _ => ⟨fun v hv => ?_, fun h0 => ?_, fun habs => ?_⟩⟩
  · simp [encodeChar, hv]
  · simp [encodeChar, h0]
  · have hkeys : ∀ e ∈ charEntries 0 (trainChars texts), e.1 ≠ c.toString := by
      intro e he heq
      obtain ⟨c', hc', hs⟩ := mem_charEntries he
      have hcc : c' = c := char_toString_injective (hs.symm.trans heq)
      subst hcc
      rw [trainChars, mem_joinAll] at hc'
      obtain ⟨l, hl, hcl⟩ := hc'
      obtain ⟨t, ht, rfl⟩ := List.mem_map.mp hl
      exact habs t ht hcl
    have hnone := btreeGet_foldl_of_no_key _ _ hkeys []
    simp only [btreeGet] at hnone
    simp [encodeChar, buildVocab, hnone]

/-- Witness for C4 on the training texts `["ab", "ba"]`. -/
theorem encode_unknown_char_to_zero_witness :
    encodeChar (buildVocab ["ab", "ba"]) 'a' = 4 ∧
    encodeChar (buildVocab ["ab", "ba"]) 'z' = 0 :=
  ⟨((encode_unknown_char_to_zero ["ab", "ba"] "az").2 'a' (by decide)).1 4
     (by decide),
   ((encode_unknown_char_to_zero ["ab", "ba"] "az").2 'z' (by decide)).2.2
     (by decide)⟩

/-- C5: `ClassifierDataset::new` resolves the test file to `dev.txt`, the
same file as the dev split, so every successful build returns a test
record sequence identical to the dev record sequence. -/
theorem test_records_equal_dev_records (fs : String → List String)
    (path : String) (N : Nat) :
    (ClassifierDataset.new path).test_file =
      (ClassifierDataset.new path).dev_file ∧
    ∀ tr dv ts v,
      build_dataset fs (ClassifierDataset.new path) N = some (tr, dv, ts, v) →
      ts = dv := by
  refine ⟨rfl, fun tr dv ts v h => ?_⟩
  simp only [build_dataset, read_classes, ClassifierDataset.new,
    Option.bind_eq_some, Option.map_eq_some'] at h
  obtain ⟨trS, htrS, trR, htrR, devS, hdevS, devR, hdevR, testS, htestS,
    testR, htestR, heq⟩ := h
  rw [hdevS] at htestS
  cases Option.some.inj htestS
  rw [hdevR] at htestR
  cases Option.some.inj htestR
  cases heq
  rfl

/-- Witness for C5 on the sample directory. -/
theorem test_records_equal_dev_records_witness :
    ([⟨[4, 0, 0], 0⟩] : List ClassifierRecord) = [⟨[4, 0, 0], 0⟩] :=
  (test_records_equal_dev_records sampleFs "data" 3).2
    [⟨[4, 3, 0], 0⟩, ⟨[3, 4, 0], 1⟩] [⟨[4, 0, 0], 0⟩] [⟨[4, 0, 0], 0⟩]
    [("a", 4), ("b", 3)] (by decide)

/-- C6: the classification line parser splits a line at its first tab into
(text, label); a line without a tab fails the parse, and any such line
makes the whole split's parse abort (`parseAll` returns `none`) rather
than being skipped. -/
theorem line_splits_at_first_tab (l : List Char) :
    ('\t' ∉ l → ClassifierSample.fromLine (String.mk l) = none) ∧
    (∀ pre post, l = pre ++ '\t' :: post → '\t' ∉ pre →
      ClassifierSample.fromLine (String.mk l) =
        some ⟨String.mk pre, String.mk post⟩) ∧
    (∀ lines : List String,
      (∃ line ∈ lines, '\t' ∉ (trimEnd line).toList) →
      parseAll lines = none) := by
  refine ⟨fun h => fromLine_eq_none_of_no_tab h,
    fun pre post heq h => ?_,
    fun lines h => parseAll_eq_none_of_bad_line h⟩
  subst heq
  unfold ClassifierSample.fromLine
  rw [show (String.mk (pre ++ '\t' :: post)).toList = pre ++ '\t' :: post
    from rfl, splitOnce_first pre post h]
  rfl

/-- Witness for C6: a line with a tab splits there; a tabless line fails
and aborts the split parse. -/
theorem line_splits_at_first_tab_witness :
    ClassifierSample.fromLine (String.mk ("ab\tc".toList)) =
      some ⟨String.mk ("ab".toList), String.mk ("c".toList)⟩ ∧
    ClassifierSample.fromLine (String.mk ("abc".toList)) = none ∧
    parseAll ["abc"] = none :=
  ⟨(line_splits_at_first_tab ("ab\tc".toList)).2.1 ("ab".toList) ("c".toList)
     (by decide) (by decide),
   (line_splits_at_first_tab ("abc".toList)).1 (by decide),
   (line_splits_at_first_tab []).2.2 ["abc"] ⟨"abc", by decide, by decide⟩⟩

/-- C7: the vocabulary of a successful build depends only on the training
file's contents — two file systems with equal training files give equal
vocabularies whatever their dev, test and class files hold. -/
theorem vocab_depends_only_on_train (fs1 fs2 : String → List String)
    (ds : ClassifierDataset) (N : Nat)
    (h : fs1 ds.train_file = fs2 ds.train_file) :
    ∀ tr1 dv1 ts1 v1 tr2 dv2 ts2 v2,
      build_dataset fs1 ds N = some (tr1, dv1, ts1, v1) →
      build_dataset fs2 ds N = some (tr2, dv2, ts2, v2) →
      v1 = v2 := by
  intro tr1 dv1 ts1 v1 tr2 dv2 ts2 v2 h1 h2
  simp only [build_dataset, read_classes, Option.bind_eq_some,
    Option.map_eq_some'] at h1 h2
  obtain ⟨trS1, htr1, trR1, _, devS1, _, devR1, _, testS1, _, testR1, _,
    heq1⟩ := h1
  obtain ⟨trS2, htr2, trR2, _, devS2, _, devR2, _, testS2, _, testR2, _,
    heq2⟩ := h2
  cases heq1
  cases heq2
  rw [h] at htr1
  rw [htr1] at htr2
  cases Option.some.inj htr2
  rfl

/-- Witness for C7: two directories sharing only the training file yield
the same vocabulary. -/
theorem vocab_depends_only_on_train_witness :
    ([("a", 4), ("b", 3)] : List (String × Nat)) = [("a", 4), ("b", 3)] :=
  vocab_depends_only_on_train sampleFs sampleFsB (ClassifierDataset.new "data")
    3 (by decide)
    [⟨[4, 3, 0], 0⟩, ⟨[3, 4, 0], 1⟩] [⟨[4, 0, 0], 0⟩] [⟨[4, 0, 0], 0⟩]
    [("a", 4), ("b", 3)]
    [⟨[4, 3, 0], 0⟩, ⟨[3, 4, 0], 1⟩] [⟨[3, 0, 0], 1⟩] [⟨[3, 0, 0], 1⟩]
    [("a", 4), ("b", 3)]
    (by decide) (by decide)

/-- C8: `build_dataset` reads nothing but the four resolved files, so two
runs over file systems that agree on the train, dev, test and class files
produce identical vocabularies and identical train/dev/test record
sequences — the build is deterministic in its inputs. -/
theorem build_dataset_deterministic (fs1 fs2 : String → List String)
    (ds : ClassifierDataset) (N : Nat)
    (h1 : fs1 ds.train_file = fs2 ds.train_file)
    (h2 : fs1 ds.dev_file = fs2 ds.dev_file)
    (h3 : fs1 ds.test_file = fs2 ds.test_file)
    (h4 : fs1 ds.class_file = fs2 ds.class_file) :
    build_dataset fs1 ds N = build_dataset fs2 ds N := by
  simp only [build_dataset, read_classes, h1, h2, h3, h4]

/-- Witness for C8: a file system differing from `sampleFs` only in a file
the build never reads gives the identical result. -/
theorem build_dataset_deterministic_witness :
    build_dataset sampleFs (ClassifierDataset.new "data") 3 =
      build_dataset sampleFsC (ClassifierDataset.new "data") 3 :=
  build_dataset_deterministic sampleFs sampleFsC (ClassifierDataset.new "data")
    3 (by decide) (by decide) (by decide) (by decide)

/-- C9: the claim fails on the code.  `TaggingIter::next` reads every
remaining line up to end-of-file — it never stops at a blank line — and
then always returns `Some`: at end-of-file it yields an empty sample and
leaves the reader at end-of-file again, so the iteration never terminates;
and a file whose blocks are separated by a blank line panics on the blank
line (one sample per block is never produced). -/
theorem tagging_next_yields_forever :
    taggingNext ([] : List String) = some (⟨[]⟩, []) ∧
    taggingNext ["a\tA", "", "b\tB"] = none := by
  decide

/-- C10: the build result is independent of the runtime configuration
(unknown token, pad token, vocabulary source, `max_length`): any two
configurations give identical output, equal to the default-configuration
output, and every produced record has exactly `N` word IDs — the record
width comes only from the compile-time `N`. -/
theorem build_independent_of_config (fs : String → List String)
    (path : String) (cfg1 cfg2 : DataConfig) (N : Nat) :
    build_dataset fs (ClassifierDataset.with_config path cfg1) N =
      build_dataset fs (ClassifierDataset.with_config path cfg2) N ∧
    build_dataset fs (ClassifierDataset.with_config path cfg1) N =
      build_dataset fs (ClassifierDataset.new path) N ∧
    ∀ tr dv ts v,
      build_dataset fs (ClassifierDataset.with_config path cfg1) N =
        some (tr, dv, ts, v) →
      (∀ r ∈ tr, r.word_ids.length = N) ∧
      (∀ r ∈ dv, r.word_ids.length = N) ∧
      (∀ r ∈ ts, r.word_ids.length = N) := by
  refine ⟨?_, ?_, fun tr dv ts v h => ?_⟩
  · simp only [build_dataset, read_classes, ClassifierDataset.with_config]
  · simp only [build_dataset, read_classes, ClassifierDataset.with_config,
      ClassifierDataset.new]
  · simp only [build_dataset, read_classes, Option.bind_eq_some,
      Option.map_eq_some'] at h
    obtain ⟨trS, _, trR, htrR, devS, _, devR, hdevR, testS, _, testR,
      htestR, heq⟩ := h
    cases heq
    exact ⟨samples_to_records_length htrR, samples_to_records_length hdevR,
      samples_to_records_length htestR⟩

/-- Witness for C10 at two different configurations over the sample
directory. -/
theorem build_independent_of_config_witness :
    build_dataset sampleFs
        (ClassifierDataset.with_config "data" (DataConfig.new "u" "p" 7)) 3 =
      build_dataset sampleFs
        (ClassifierDataset.with_config "data" DataConfig.default) 3 ∧
    ∀ r ∈ ([⟨[4, 3, 0], 0⟩, ⟨[3, 4, 0], 1⟩] : List ClassifierRecord),
      r.word_ids.length = 3 :=
  ⟨(build_independent_of_config sampleFs "data" (DataConfig.new "u" "p" 7)
      DataConfig.default 3).1,
   ((build_independent_of_config sampleFs "data" (DataConfig.new "u" "p" 7)
      DataConfig.default 3).2.2 [⟨[4, 3, 0], 0⟩, ⟨[3, 4, 0], 1⟩]
      [⟨[4, 0, 0], 0⟩] [⟨[4, 0, 0], 0⟩] [("a", 4), ("b", 3)] (by decide)).1⟩

end NLReaders
